import Mathlib

/-!
# WorkforceManagement — verification of the face-recognition attendance flow

A shallow embedding of the attendance subsystem of the WorkforceManagement
repository.  The repository snapshot contains the documentation (`README.md`),
the launcher (`run.sh`), the installer, the curl test-suite and the React
dashboard, but not the Python modules (`database.py`,
`face_recognition_system.py`, `web_interface.py`, `main.py`) themselves; the
Attendance Store, the Recognition Matcher, the Session Controller, the Sync
Bridge and the HTTP response shape are therefore modelled from the
specification's words, as noted on each definition.  The launcher semantics
(`runScript`) are translated directly from `run.sh`, which is present.

Timestamps and dates are natural numbers; face encodings are lists of
rationals.  Euclidean-distance comparisons `dist < t` are embedded as the
equivalent squared comparisons `distSq < t*t` (for nonnegative tolerances),
which keeps every predicate decidable.
-/

/-- A face encoding: a fixed-length numeric vector produced by the external
embedding provider (spec §2, glossary). -/
abbrev Encoding := List ℚ

/-- Modelled from the spec: `User` record of the Attendance Store data model
(spec §3): `{id, name, encoding}`, where the encoding may be absent
(manual-only user). -/
structure User where
  id : Nat
  name : String
  encoding : Option Encoding
deriving Repr, DecidableEq

/-- Modelled from the spec: `AttendanceRecord` of the data model (spec §3):
`{user_id, date, check_in_time, check_out_time (nullable)}`. -/
structure AttendanceRecord where
  user_id : Nat
  date : Nat
  check_in_time : Nat
  check_out_time : Option Nat
deriving Repr, DecidableEq

/-- Modelled from the spec: the local relational store, with a users table and
an attendance table (spec §3, §6; README "Database Structure"). -/
structure Store where
  nextId : Nat
  users : List User
  records : List AttendanceRecord
deriving Repr, DecidableEq

/-- The store created on first run: no users, no attendance records. -/
def emptyStore : Store := ⟨1, [], []⟩

/-- Modelled from the spec: the error taxonomy of the store operations
(spec §7). -/
inductive StoreError where
  | alreadyCheckedIn
  | noOpenSession
  | notFound
deriving Repr, DecidableEq

/-- Does record `r` belong to user `u` on date `d`? -/
def sameUserDate (u d : Nat) (r : AttendanceRecord) : Bool :=
  r.user_id == u && r.date == d

/-- All attendance records of user `u` on date `d`. -/
def recordsFor (s : Store) (u d : Nat) : List AttendanceRecord :=
  s.records.filter (sameUserDate u d)

/-- Is `r` an open record (check-in but no check-out yet) of user `u` on
date `d`?  (Spec glossary, "open record".) -/
def isOpenFor (u d : Nat) (r : AttendanceRecord) : Bool :=
  sameUserDate u d r && r.check_out_time.isNone

/-- The open attendance record of user `u` on date `d`, if any. -/
def openRecord (s : Store) (u d : Nat) : Option AttendanceRecord :=
  s.records.find? (isOpenFor u d)

/-- Modelled from the spec: `addUser(name, encoding?) -> userId` (spec §4.1).
Returns the updated store and the fresh user id. -/
def addUser (s : Store) (name : String) (enc : Option Encoding) : Store × Nat :=
  (⟨s.nextId + 1, s.users ++ [⟨s.nextId, name, enc⟩], s.records⟩, s.nextId)

/-- Modelled from the spec: `recordCheckIn(userId, timestamp)` (spec §4.1,
§8 scenario; README "Mark check-in (if first time today)").  A record is
created only at the first recognized check-in of the day: if any record —
open or completed — already exists for `(u, d)`, the call fails with
`AlreadyCheckedIn` and no record is created. -/
def recordCheckIn (s : Store) (u d t : Nat) : Except StoreError Store :=
  if (recordsFor s u d).isEmpty then
    .ok ⟨s.nextId, s.users, s.records ++ [⟨u, d, t, none⟩]⟩
  else
    .error .alreadyCheckedIn

/-- Set the check-out time of the first open record of `(u, d)` in the list,
leaving every other record untouched. -/
def setCheckOut (u d t : Nat) : List AttendanceRecord → List AttendanceRecord
  | [] => []
  | r :: rest =>
    if isOpenFor u d r then { r with check_out_time := some t } :: rest
    else r :: setCheckOut u d t rest

/-- Modelled from the spec: `recordCheckOut(userId, timestamp)` (spec §4.1):
mutates the open record of the day to set `check_out_time`, or fails with
`NoOpenSession` when no open record exists. -/
def recordCheckOut (s : Store) (u d t : Nat) : Except StoreError Store :=
  match openRecord s u d with
  | none => .error .noOpenSession
  | some _ => .ok ⟨s.nextId, s.users, setCheckOut u d t s.records⟩

/-- Modelled from the spec: the states of the Attendance Store reachable from
first run by the store operations (spec §4.1, §5). -/
inductive Reachable : Store → Prop
  | init : Reachable emptyStore
  | addUser (s : Store) (n : String) (e : Option Encoding) :
      Reachable s → Reachable (addUser s n e).1
  | checkIn (s s' : Store) (u d t : Nat) :
      Reachable s → recordCheckIn s u d t = .ok s' → Reachable s'
  | checkOut (s s' : Store) (u d t : Nat) :
      Reachable s → recordCheckOut s u d t = .ok s' → Reachable s'

/-- The core invariant of the data model: no two attendance records share the
same `(user, date)` pair (spec §3). -/
def UniquePerUserDate (s : Store) : Prop :=
  ∀ u d : Nat, (recordsFor s u d).length ≤ 1

lemma recordsFor_addUser (s : Store) (n : String) (e : Option Encoding)
    (u d : Nat) : recordsFor (addUser s n e).1 u d = recordsFor s u d := rfl

lemma recordCheckIn_ok_iff (s : Store) (u d t : Nat) (s' : Store) :
    recordCheckIn s u d t = .ok s' ↔
      recordsFor s u d = [] ∧
        s' = ⟨s.nextId, s.users, s.records ++ [⟨u, d, t, none⟩]⟩ := by
  unfold recordCheckIn
  split
  · next h =>
    simp only [List.isEmpty_iff] at h
    simp [h, eq_comm]
  · next h =>
    simp only [List.isEmpty_iff] at h
    simp [h]

lemma recordCheckOut_ok_iff (s : Store) (u d t : Nat) (s' : Store) :
    recordCheckOut s u d t = .ok s' ↔
      (openRecord s u d).isSome ∧
        s' = ⟨s.nextId, s.users, setCheckOut u d t s.records⟩ := by
  unfold recordCheckOut
  cases h : openRecord s u d <;> simp [eq_comm]

lemma sameUserDate_setCheckOut (u d t u' d' : Nat)
    (l : List AttendanceRecord) :
    ((setCheckOut u d t l).filter (sameUserDate u' d')).length
      = (l.filter (sameUserDate u' d')).length := by
  induction l with
  | nil => rfl
  | cons r rest ih =>
    unfold setCheckOut
    split
    · cases r with
      | mk ru rd rin rout =>
        simp only [List.filter_cons, sameUserDate]
        split <;> simp
    · simp only [List.filter_cons]
      split <;> simp [ih]

lemma uniquePerUserDate_preserved (s : Store) (h : Reachable s) :
    UniquePerUserDate s := by
  induction h with
  | init =>
    intro u d
    simp [recordsFor, emptyStore]
  | addUser s n e _ ih =>
    intro u d
    rw [recordsFor_addUser]
    exact ih u d
  | checkIn s s' u d t _ hok ih =>
    rcases (recordCheckIn_ok_iff s u d t s').1 hok with ⟨hemp, rfl⟩
    intro u' d'
    simp only [recordsFor, List.filter_append]
    by_cases hud : u' = u ∧ d' = d
    · rcases hud with ⟨rfl, rfl⟩
      have : s.records.filter (sameUserDate u' d') = [] := hemp
      simp [this, sameUserDate]
    · have hne : sameUserDate u' d' ⟨u, d, t, none⟩ = false := by
        simp only [sameUserDate]
        by_cases h1 : u = u'
        · subst h1
          have h2 : ¬ d' = d := fun hd => hud ⟨rfl, hd⟩
          simp [Ne.symm h2]
        · simp [h1]
      have hu := ih u' d'
      simp only [recordsFor] at hu
      simp [hne, hu]
  | checkOut s s' u d t _ hok ih =>
    rcases (recordCheckOut_ok_iff s u d t s').1 hok with ⟨_, rfl⟩
    intro u' d'
    simp only [recordsFor]
    rw [sameUserDate_setCheckOut]
    exact ih u' d'

/-- A demonstration store: Alice registered and checked in (reachable from
first run by `addUser` then `recordCheckIn`). -/
def demoStore1 : Store :=
  ⟨2, [⟨1, "Alice", some [1/2]⟩], [⟨1, 0, 900, none⟩]⟩

/-- A demonstration store: Alice's record for date 0 is completed
(checked in at 900, checked out at 1700). -/
def demoStore2 : Store :=
  ⟨2, [⟨1, "Alice", some [1/2]⟩], [⟨1, 0, 900, some 1700⟩]⟩

/-- C1: in every reachable state of the Attendance Store, every user `u` and
every date `d` have at most one open record (`check_out_time = null`) and at
most one attendance record altogether: records are never duplicated for the
same `(user, date)` pair. -/
theorem attendance_store_unique_records (s : Store) (h : Reachable s)
    (u d : Nat) :
    (s.records.filter (isOpenFor u d)).length ≤ 1 ∧
      (recordsFor s u d).length ≤ 1 := by
  have hu := uniquePerUserDate_preserved s h u d
  refine ⟨?_, hu⟩
  have heq : s.records.filter (isOpenFor u d)
      = (s.records.filter (sameUserDate u d)).filter
          (fun r => r.check_out_time.isNone) := by
    rw [List.filter_filter]
    apply List.filter_congr
    intro r _
    simp [isOpenFor, Bool.and_comm]
  rw [heq]
  exact le_trans (List.length_filter_le _ _) hu

/-- C1 witness: the invariant evaluated on a concrete reachable store. -/
theorem attendance_store_unique_records_witness :
    (demoStore1.records.filter (isOpenFor 1 0)).length ≤ 1 ∧
      (recordsFor demoStore1 1 0).length ≤ 1 :=
  attendance_store_unique_records demoStore1
    (Reachable.checkIn _ demoStore1 1 0 900
      (Reachable.addUser emptyStore "Alice" (some [1/2]) Reachable.init)
      rfl)
    1 0

/-- Modelled from the spec: the action the Session Controller reports for one
capture tick (spec §4.3; README "Attendance Tracking Process"). -/
inductive TickAction where
  | checkedIn
  | checkedOut
  | rejected (e : StoreError)
deriving Repr, DecidableEq

/-- Modelled from the spec: one capture tick of the Attendance Session
Controller after the Matcher returned user `u` (spec §4.3): if the matched
user has no open attendance record for today, call `recordCheckIn`;
otherwise call `recordCheckOut`.  On a store error the state is kept and the
rejection is reported. -/
def handleRecognition (s : Store) (u d t : Nat) : Store × TickAction :=
  match openRecord s u d with
  | none =>
    match recordCheckIn s u d t with
    | .ok s' => (s', .checkedIn)
    | .error e => (s, .rejected e)
  | some _ =>
    match recordCheckOut s u d t with
    | .ok s' => (s', .checkedOut)
    | .error e => (s, .rejected e)

/-- C2: on a capture tick that recognized user `u`, the controller checks in
when `u` has no attendance record for today, checks out when an open record
exists, and when only a completed record exists the check-in attempt is
rejected with `AlreadyCheckedIn` and the store is left unchanged (no new
record is created). -/
theorem session_controller_tick (s : Store) (u d t : Nat) :
    (openRecord s u d = none → recordsFor s u d = [] →
        (handleRecognition s u d t).2 = .checkedIn) ∧
    (openRecord s u d = none → recordsFor s u d ≠ [] →
        handleRecognition s u d t = (s, .rejected .alreadyCheckedIn)) ∧
    (∀ r, openRecord s u d = some r →
        (handleRecognition s u d t).2 = .checkedOut) := by
  refine ⟨?_, ?_, ?_⟩
  · intro hop hemp
    simp [handleRecognition, hop, recordCheckIn, hemp]
  · intro hop hne
    simp [handleRecognition, hop, recordCheckIn, List.isEmpty_iff, hne]
  · intro r hop
    simp [handleRecognition, hop, recordCheckOut]

/-- C2 witness: a third recognition on a day whose record is already completed
is rejected and creates no record. -/
theorem session_controller_tick_witness :
    handleRecognition demoStore2 1 0 1705
      = (demoStore2, .rejected .alreadyCheckedIn) :=
  (session_controller_tick demoStore2 1 0 1705).2.1 rfl (by decide)

/-- Modelled from the spec: a check-in attempt as seen by the caller — on
failure the error is reported to the caller and the store is unchanged, not
retried (spec §7). -/
def tryCheckIn (s : Store) (u d t : Nat) : Store × Option StoreError :=
  match recordCheckIn s u d t with
  | .ok s' => (s', none)
  | .error e => (s, some e)

/-- Modelled from the spec: a check-out attempt as seen by the caller — on
failure the error is reported to the caller and the store is unchanged, not
retried (spec §7). -/
def tryCheckOut (s : Store) (u d t : Nat) : Store × Option StoreError :=
  match recordCheckOut s u d t with
  | .ok s' => (s', none)
  | .error e => (s, some e)

lemma recordCheckIn_error_iff (s : Store) (u d t : Nat) (e : StoreError) :
    recordCheckIn s u d t = .error e ↔
      e = .alreadyCheckedIn ∧ recordsFor s u d ≠ [] := by
  unfold recordCheckIn
  split
  · next h =>
    simp only [List.isEmpty_iff] at h
    simp [h]
  · next h =>
    simp only [List.isEmpty_iff] at h
    simp [h, eq_comm]

lemma recordCheckOut_error_iff (s : Store) (u d t : Nat) (e : StoreError) :
    recordCheckOut s u d t = .error e ↔
      e = .noOpenSession ∧ openRecord s u d = none := by
  unfold recordCheckOut
  cases h : openRecord s u d <;> simp [eq_comm]

/-- C3 counterexample: `recordCheckIn` does not fail exactly when an OPEN
record exists — on a store whose only record for the day is completed,
the check-in fails with `AlreadyCheckedIn` although no open record exists. -/
theorem recordCheckIn_open_iff_counterexample :
    recordCheckIn demoStore2 1 0 905 = .error .alreadyCheckedIn ∧
      openRecord demoStore2 1 0 = none :=
  ⟨rfl, rfl⟩

/-- C3 (amended): `recordCheckIn` fails with `AlreadyCheckedIn` exactly when
any record — open or completed — exists for `(u, d)`; `recordCheckOut` fails
with `NoOpenSession` exactly when no open record exists; in both failure
cases these are the only errors, the store is unchanged and the error is
reported to the caller. -/
theorem store_failure_modes (s : Store) (u d t : Nat) :
    ((tryCheckIn s u d t).2 = some .alreadyCheckedIn ↔ recordsFor s u d ≠ []) ∧
    (∀ e, (tryCheckIn s u d t).2 = some e →
        e = .alreadyCheckedIn ∧ (tryCheckIn s u d t).1 = s) ∧
    ((tryCheckOut s u d t).2 = some .noOpenSession ↔ openRecord s u d = none) ∧
    (∀ e, (tryCheckOut s u d t).2 = some e →
        e = .noOpenSession ∧ (tryCheckOut s u d t).1 = s) := by
  refine ⟨?_, ?_, ?_, ?_⟩
  · cases hc : recordCheckIn s u d t with
    | ok s' =>
      have hok := (recordCheckIn_ok_iff s u d t s').1 hc
      simp [tryCheckIn, hc, hok.1]
    | error e =>
      have he := (recordCheckIn_error_iff s u d t e).1 hc
      simp [tryCheckIn, hc, he.1, he.2]
  · intro e he2
    cases hc : recordCheckIn s u d t with
    | ok s' => simp [tryCheckIn, hc] at he2
    | error e' =>
      have he := (recordCheckIn_error_iff s u d t e').1 hc
      simp only [tryCheckIn, hc, Option.some.injEq] at he2
      subst he2
      exact ⟨he.1, by simp [tryCheckIn, hc]⟩
  · cases hc : recordCheckOut s u d t with
    | ok s' =>
      have hok := (recordCheckOut_ok_iff s u d t s').1 hc
      rcases Option.isSome_iff_exists.1 hok.1 with ⟨r, hr⟩
      simp [tryCheckOut, hc, hr]
    | error e =>
      have he := (recordCheckOut_error_iff s u d t e).1 hc
      simp [tryCheckOut, hc, he.1, he.2]
  · intro e he2
    cases hc : recordCheckOut s u d t with
    | ok s' => simp [tryCheckOut, hc] at he2
    | error e' =>
      have he := (recordCheckOut_error_iff s u d t e').1 hc
      simp only [tryCheckOut, hc, Option.some.injEq] at he2
      subst he2
      exact ⟨he.1, by simp [tryCheckOut, hc]⟩

/-- C3 witness: on the completed-record store the check-in attempt reports
`AlreadyCheckedIn` to the caller. -/
theorem store_failure_modes_witness :
    (tryCheckIn demoStore2 1 0 905).2 = some .alreadyCheckedIn :=
  (store_failure_modes demoStore2 1 0 905).1.mpr (by decide)

/-- Modelled from the spec: squared Euclidean distance in embedding space
(spec §4.2).  A comparison `dist < t` against a nonnegative tolerance `t` is
embedded as the equivalent `distSq < t * t`. -/
def distSq (a b : Encoding) : ℚ :=
  (List.zipWith (fun x y => (x - y) * (x - y)) a b).sum

lemma distSq_cons (x y : ℚ) (xs ys : Encoding) :
    distSq (x :: xs) (y :: ys) = (x - y) * (x - y) + distSq xs ys := by
  simp [distSq]

lemma distSq_nonneg (a b : Encoding) : 0 ≤ distSq a b := by
  induction a generalizing b with
  | nil => simp [distSq]
  | cons x xs ih =>
    cases b with
    | nil => simp [distSq]
    | cons y ys =>
      rw [distSq_cons]
      exact add_nonneg (mul_self_nonneg _) (ih ys)

lemma distSq_self (a : Encoding) : distSq a a = 0 := by
  induction a with
  | nil => rfl
  | cons x xs ih =>
    rw [distSq_cons, ih]
    ring

/-- Keep the nearer of a new scored candidate and the best seen so far; the
new candidate wins ties (it sits earlier in the list). -/
def betterOf (c : Nat × ℚ) : Option (Nat × ℚ) → Option (Nat × ℚ)
  | none => some c
  | some p => if c.2 ≤ p.2 then some c else some p

/-- Modelled from the spec: minimum-distance selection over the candidate
list (spec §4.2).  Returns the candidate with the smallest squared distance
to the live encoding, with that distance; the earlier candidate wins ties
(the spec fixes no tie-break and treats ties as ordinary minimum
selection). -/
def bestCandidate (live : Encoding) :
    List (Nat × Encoding) → Option (Nat × ℚ)
  | [] => none
  | c :: rest => betterOf (c.1, distSq live c.2) (bestCandidate live rest)

lemma bestCandidate_cons (live : Encoding) (c : Nat × Encoding)
    (rest : List (Nat × Encoding)) :
    bestCandidate live (c :: rest)
      = betterOf (c.1, distSq live c.2) (bestCandidate live rest) := rfl

lemma bestCandidate_eq_none_iff (live : Encoding)
    (cands : List (Nat × Encoding)) :
    bestCandidate live cands = none ↔ cands = [] := by
  cases cands with
  | nil => simp [bestCandidate]
  | cons c rest =>
    rw [bestCandidate_cons]
    cases hb : bestCandidate live rest with
    | none => simp [betterOf]
    | some p =>
      by_cases hle : distSq live c.2 ≤ p.2 <;> simp [betterOf, hle]

lemma bestCandidate_mem (live : Encoding) (cands : List (Nat × Encoding))
    (u : Nat) (d : ℚ) (h : bestCandidate live cands = some (u, d)) :
    ∃ e, (u, e) ∈ cands ∧ distSq live e = d := by
  induction cands generalizing u d with
  | nil => simp [bestCandidate] at h
  | cons c rest ih =>
    rw [bestCandidate_cons] at h
    cases hb : bestCandidate live rest with
    | none =>
      rw [hb] at h
      simp only [betterOf, Option.some.injEq, Prod.mk.injEq] at h
      exact ⟨c.2, by simp [← h.1], h.2⟩
    | some p =>
      rw [hb] at h
      simp only [betterOf] at h
      split at h
      · simp only [Option.some.injEq, Prod.mk.injEq] at h
        exact ⟨c.2, by simp [← h.1], h.2⟩
      · obtain ⟨v, db⟩ := p
        simp only [Option.some.injEq, Prod.mk.injEq] at h
        obtain ⟨e, hmem, hd⟩ := ih v db hb
        rw [h.1] at hmem
        rw [h.2] at hd
        exact ⟨e, List.mem_cons_of_mem _ hmem, hd⟩

lemma bestCandidate_min (live : Encoding) (cands : List (Nat × Encoding))
    (u : Nat) (d : ℚ) (h : bestCandidate live cands = some (u, d)) :
    ∀ p ∈ cands, d ≤ distSq live p.2 := by
  induction cands generalizing u d with
  | nil => simp
  | cons c rest ih =>
    intro p hp
    rw [bestCandidate_cons] at h
    cases hb : bestCandidate live rest with
    | none =>
      have hrest : rest = [] := (bestCandidate_eq_none_iff live rest).1 hb
      subst hrest
      rw [hb] at h
      simp only [betterOf, Option.some.injEq, Prod.mk.injEq] at h
      simp only [List.mem_cons, List.not_mem_nil, or_false] at hp
      subst hp
      rw [← h.2]
    | some q =>
      obtain ⟨v, db⟩ := q
      rw [hb] at h
      have hmin : ∀ p ∈ rest, db ≤ distSq live p.2 := ih v db hb
      simp only [betterOf] at h
      rcases List.mem_cons.1 hp with rfl | hmem
      · split at h
        · simp only [Option.some.injEq, Prod.mk.injEq] at h
          rw [← h.2]
        · next hlt =>
          simp only [Option.some.injEq, Prod.mk.injEq] at h
          rw [← h.2]
          exact le_of_lt (not_le.1 hlt)
      · split at h
        · next hle =>
          simp only [Option.some.injEq, Prod.mk.injEq] at h
          rw [← h.2]
          exact le_trans hle (hmin p hmem)
        · simp only [Option.some.injEq, Prod.mk.injEq] at h
          rw [← h.2]
          exact hmin p hmem

/-- Modelled from the spec: `match(liveEncoding, candidates, tolerance)`
(spec §4.2): select the minimum-distance candidate when its distance is
below `tolerance`, otherwise NoMatch (`none`). -/
def matchEncoding (live : Encoding) (cands : List (Nat × Encoding))
    (tol : ℚ) : Option Nat :=
  match bestCandidate live cands with
  | none => none
  | some p => if p.2 < tol * tol then some p.1 else none

/-- Modelled from the spec: the tiered-tolerance retry (spec §4.2, §9): an
ordered list of tolerance thresholds tried in sequence, first acceptable
match wins; the matcher relaxes to the next tolerance only when a pass
finds no candidate. -/
def matchTiered (live : Encoding) (cands : List (Nat × Encoding)) :
    List ℚ → Option Nat
  | [] => none
  | t :: rest =>
    match matchEncoding live cands t with
    | some u => some u
    | none => matchTiered live cands rest

/-- The tolerance levels named by the README ("Multiple tolerance levels
(0.6, 0.5, 0.4)"), ordered strictest pass first per spec §4.2: attempt the
strict match first, relax only if no candidate beats the strict bound. -/
def defaultTolerances : List ℚ := [4/10, 5/10, 6/10]

lemma matchEncoding_of_best_none (live : Encoding)
    (cands : List (Nat × Encoding)) (tol : ℚ)
    (h : bestCandidate live cands = none) :
    matchEncoding live cands tol = none := by
  unfold matchEncoding
  rw [h]

lemma matchEncoding_of_best_some (live : Encoding)
    (cands : List (Nat × Encoding)) (tol : ℚ) (p : Nat × ℚ)
    (h : bestCandidate live cands = some p) :
    matchEncoding live cands tol
      = if p.2 < tol * tol then some p.1 else none := by
  unfold matchEncoding
  rw [h]

lemma matchTiered_cons_some (live : Encoding)
    (cands : List (Nat × Encoding)) (t : ℚ) (rest : List ℚ) (u : Nat)
    (h : matchEncoding live cands t = some u) :
    matchTiered live cands (t :: rest) = some u := by
  unfold matchTiered
  rw [h]

lemma matchTiered_cons_none (live : Encoding)
    (cands : List (Nat × Encoding)) (t : ℚ) (rest : List ℚ)
    (h : matchEncoding live cands t = none) :
    matchTiered live cands (t :: rest) = matchTiered live cands rest := by
  have e : matchTiered live cands (t :: rest)
      = match matchEncoding live cands t with
        | some u => some u
        | none => matchTiered live cands rest := rfl
  rw [e, h]

lemma matchEncoding_some (live : Encoding) (cands : List (Nat × Encoding))
    (tol : ℚ) (u : Nat) (h : matchEncoding live cands tol = some u) :
    ∃ d, bestCandidate live cands = some (u, d) ∧ d < tol * tol := by
  cases hb : bestCandidate live cands with
  | none =>
    rw [matchEncoding_of_best_none live cands tol hb] at h
    exact absurd h (by simp)
  | some p =>
    obtain ⟨v, d⟩ := p
    rw [matchEncoding_of_best_some live cands tol (v, d) hb] at h
    split at h
    · next hd =>
      simp at h
      subst h
      exact ⟨d, rfl, by simpa using hd⟩
    · simp at h

/-- C4: the tiered-tolerance retry tries the ordered threshold list in
sequence: the head (strictest) pass decides whenever it finds an acceptable
match, the matcher relaxes to the remaining tolerances only when that pass
finds no candidate, and any accepted match is within some configured
tolerance — never farther than a bound `B` dominating every configured
tolerance. -/
theorem tiered_tolerance_retry (live : Encoding)
    (cands : List (Nat × Encoding)) (t : ℚ) (ts : List ℚ) (B : ℚ) :
    (∀ u, matchEncoding live cands t = some u →
        matchTiered live cands (t :: ts) = some u) ∧
    (matchEncoding live cands t = none →
        matchTiered live cands (t :: ts) = matchTiered live cands ts) ∧
    (∀ tols : List ℚ, (∀ t' ∈ tols, 0 ≤ t' ∧ t' ≤ B) →
        ∀ u, matchTiered live cands tols = some u →
          ∃ e, (u, e) ∈ cands ∧ distSq live e < B * B) := by
  refine ⟨?_, ?_, ?_⟩
  · intro u hu
    exact matchTiered_cons_some live cands t ts u hu
  · intro hn
    exact matchTiered_cons_none live cands t ts hn
  · intro tols
    induction tols with
    | nil =>
      intro _ u h
      simp [matchTiered] at h
    | cons t' rest ih =>
      intro hbound u h
      cases hm : matchEncoding live cands t' with
      | some v =>
        rw [matchTiered_cons_some live cands t' rest v hm] at h
        simp only [Option.some.injEq] at h
        subst h
        obtain ⟨d, hb, hd⟩ := matchEncoding_some live cands t' v hm
        obtain ⟨e, hmem, hde⟩ := bestCandidate_mem live cands v d hb
        refine ⟨e, hmem, ?_⟩
        have ht' := hbound t' (List.mem_cons_self _ _)
        have hsq : t' * t' ≤ B * B :=
          mul_le_mul ht'.2 ht'.2 ht'.1 (le_trans ht'.1 ht'.2)
        rw [hde]
        exact lt_of_lt_of_le hd hsq
      | none =>
        rw [matchTiered_cons_none live cands t' rest hm] at h
        exact ih (fun t'' h'' => hbound t'' (List.mem_cons_of_mem _ h'')) u h

/-- C4 witness: the tiered matcher evaluated on a concrete roster accepts a
match within the configured bound. -/
theorem tiered_tolerance_retry_witness :
    ∃ e, ((1 : Nat), e) ∈ [((1 : Nat), ([0] : Encoding)), (2, [1])] ∧
      distSq [0] e < (1/2 : ℚ) * (1/2) :=
  (tiered_tolerance_retry [0] [(1, [0]), (2, [1])] (1/2) [] (1/2)).2.2
    [1/2]
    (by
      intro t' ht'
      simp only [List.mem_singleton] at ht'
      subst ht'
      norm_num)
    1
    (by norm_num [matchTiered, matchEncoding, bestCandidate, betterOf,
      distSq])

/-- C5: the matcher selects the minimum-distance candidate below tolerance:
when candidate `a` is within the tolerance (squared distance below
`tol * tol`) and every other user's candidate is strictly farther than the
tolerance, the match returns `a`; and when every candidate is at least every
configured tolerance away, the tiered match returns NoMatch. -/
theorem matcher_min_distance (live : Encoding)
    (cands : List (Nat × Encoding)) (tol : ℚ) (tols : List ℚ)
    (a : Nat) (ea : Encoding) :
    ((a, ea) ∈ cands → distSq live ea < tol * tol →
        (∀ p ∈ cands, p.1 ≠ a → tol * tol < distSq live p.2) →
        matchEncoding live cands tol = some a) ∧
    ((∀ p ∈ cands, ∀ t ∈ tols, t * t ≤ distSq live p.2) →
        matchTiered live cands tols = none) := by
  constructor
  · intro hmem hnear hfar
    cases hb : bestCandidate live cands with
    | none =>
      have hnil : cands = [] := (bestCandidate_eq_none_iff live cands).1 hb
      subst hnil
      simp at hmem
    | some p =>
      obtain ⟨v, d⟩ := p
      have hdmin := bestCandidate_min live cands v d hb
      have hdle : d ≤ distSq live ea := by
        simpa using hdmin (a, ea) hmem
      have hva : v = a := by
        by_contra hne
        obtain ⟨e, hm, hde⟩ := bestCandidate_mem live cands v d hb
        have hgt := hfar (v, e) hm hne
        rw [hde] at hgt
        exact absurd (lt_trans hgt (lt_of_le_of_lt hdle hnear))
          (lt_irrefl _)
      subst hva
      rw [matchEncoding_of_best_some live cands tol (v, d) hb]
      simp [lt_of_le_of_lt hdle hnear]
  · induction tols with
    | nil =>
      intro _
      rfl
    | cons t rest ih =>
      intro hfar
      have hm : matchEncoding live cands t = none := by
        cases hb : bestCandidate live cands with
        | none => exact matchEncoding_of_best_none live cands t hb
        | some p =>
          obtain ⟨v, d⟩ := p
          obtain ⟨e, hmem, hde⟩ := bestCandidate_mem live cands v d hb
          have hge := hfar (v, e) hmem t (List.mem_cons_self _ _)
          rw [hde] at hge
          rw [matchEncoding_of_best_some live cands t (v, d) hb]
          simp [not_lt.2 hge]
      rw [matchTiered_cons_none live cands t rest hm]
      exact ih (fun p hp t' ht' => hfar p hp t' (List.mem_cons_of_mem _ ht'))

/-- C5 witness: the unique in-tolerance candidate on a concrete roster is
returned. -/
theorem matcher_min_distance_witness :
    matchEncoding [0] [((1 : Nat), ([0] : Encoding)), (2, [1])] (1/2)
      = some 1 :=
  (matcher_min_distance [0] [(1, [0]), (2, [1])] (1/2) [] 1 [0]).1
    (by simp)
    (by norm_num [distSq])
    (by
      intro p hp hne
      simp only [List.mem_cons, List.not_mem_nil, or_false] at hp
      rcases hp with rfl | rfl
      · exact absurd rfl hne
      · norm_num [distSq])

/-- Modelled from the spec: the candidate roster the Matcher sees — every
registered user that has a stored encoding (spec §4.2, §4.3). -/
def rosterCandidates (s : Store) : List (Nat × Encoding) :=
  s.users.filterMap (fun u => u.encoding.map (fun e => (u.id, e)))

lemma rosterCandidates_addUser (s : Store) (n : String) (E : Encoding) :
    rosterCandidates (addUser s n (some E)).1
      = rosterCandidates s ++ [(s.nextId, E)] := by
  simp [rosterCandidates, addUser]

lemma bestCandidate_append_zero (live : Encoding)
    (l : List (Nat × Encoding)) (a : Nat) (ea : Encoding)
    (h0 : distSq live ea = 0) (hl : ∀ p ∈ l, distSq live p.2 ≠ 0) :
    bestCandidate live (l ++ [(a, ea)]) = some (a, 0) := by
  induction l with
  | nil => simp [bestCandidate, betterOf, h0]
  | cons c rest ih =>
    have hrest : bestCandidate live (rest ++ [(a, ea)]) = some (a, 0) :=
      ih (fun p hp => hl p (List.mem_cons_of_mem _ hp))
    have hc : distSq live c.2 ≠ 0 := hl c (List.mem_cons_self _ _)
    have hcpos : 0 < distSq live c.2 :=
      lt_of_le_of_ne (distSq_nonneg _ _) (Ne.symm hc)
    rw [List.cons_append, bestCandidate_cons, hrest]
    simp [betterOf, not_le.2 hcpos]

/-- C6: registering a user with encoding `E` and immediately matching `E`
against the roster returns that user, because the distance between `E` and
the stored encoding is 0.  The hypothesis excludes a pre-existing user whose
stored encoding already lies at distance 0 from `E` (an exact duplicate
would make "that user" ambiguous; the spec fixes no tie-break). -/
theorem register_match_roundtrip (s : Store) (n : String) (E : Encoding)
    (hfresh : ∀ p ∈ rosterCandidates s, distSq E p.2 ≠ 0) :
    distSq E E = 0 ∧
      matchTiered E (rosterCandidates (addUser s n (some E)).1)
          defaultTolerances
        = some ((addUser s n (some E)).2) := by
  refine ⟨distSq_self E, ?_⟩
  rw [rosterCandidates_addUser]
  have hb := bestCandidate_append_zero E (rosterCandidates s) s.nextId E
    (distSq_self E) hfresh
  have hm : matchEncoding E (rosterCandidates s ++ [(s.nextId, E)]) (4/10)
      = some s.nextId := by
    rw [matchEncoding_of_best_some _ _ _ _ hb]
    norm_num
  exact matchTiered_cons_some _ _ _ _ _ hm

/-- C6 witness: round-trip on the empty store with a concrete encoding. -/
theorem register_match_roundtrip_witness :
    distSq [1/2] [1/2] = 0 ∧
      matchTiered [1/2]
          (rosterCandidates (addUser emptyStore "Alice" (some [1/2])).1)
          defaultTolerances
        = some ((addUser emptyStore "Alice" (some [1/2])).2) :=
  register_match_roundtrip emptyStore "Alice" [1/2]
    (by
      intro p hp
      simp [rosterCandidates, emptyStore] at hp)

/-- Modelled from the spec: the Sync Bridge's view — the locally retained
unsynced attendance records and the central system's records (spec §4.4). -/
structure SyncState where
  unsynced : List AttendanceRecord
  central : List AttendanceRecord
deriving Repr, DecidableEq

/-- Modelled from the spec: one scheduled push attempt (spec §4.4, §7): on a
successful transport the unsynced records are delivered to the central
system and cleared locally; on transport failure the bridge retains every
unsynced record locally, discarding nothing. -/
def syncTick (st : SyncState) (transportOk : Bool) : SyncState :=
  if transportOk then ⟨[], st.central ++ st.unsynced⟩ else st

/-- Modelled from the spec: a run of scheduled intervals; each list element
is one interval's transport outcome (spec §4.4 fixed-interval retry). -/
def runSync (st : SyncState) : List Bool → SyncState
  | [] => st
  | ok :: rest => runSync (syncTick st ok) rest

/-- C7: a transport failure leaves the bridge state unchanged — every
unsynced record is retained locally and retried on the next interval, none
discarded — and a push that fails once and succeeds on the next interval
produces exactly the central state of an immediately successful push: each
record's multiplicity in the central system grows by its multiplicity among
the unsynced records, so no record is lost or duplicated. -/
theorem sync_retry_no_loss (st : SyncState) (r : AttendanceRecord) :
    syncTick st false = st ∧
    runSync st [false, true] = runSync st [true] ∧
    (runSync st [false, true]).unsynced = [] ∧
    (runSync st [false, true]).central.count r
      = st.central.count r + st.unsynced.count r := by
  refine ⟨rfl, rfl, rfl, ?_⟩
  simp [runSync, syncTick, List.count_append]

/-- Modelled from the spec: the outcome of an endpoint handler as a tagged
result — `Ok(data)` or `Err(message)` (spec §6, §9). -/
inductive ApiResult where
  | ok (data : String)
  | err (message : String)
deriving Repr, DecidableEq

/-- Modelled from the spec: the JSON object every HTTP endpoint returns — a
success flag and either a data payload or a message string (spec §6; the
curl test-suite in src/unnamed/part_000 checks for exactly these
`success`/`data`/`message` fields). -/
structure JsonResponse where
  success : Bool
  data : Option String
  message : Option String
deriving Repr, DecidableEq

/-- Modelled from the spec: serialization of a handler outcome at the HTTP
boundary (spec §6). -/
def serializeResponse : ApiResult → JsonResponse
  | .ok d => ⟨true, some d, none⟩
  | .err m => ⟨false, none, some m⟩

/-- The dashboard's consumption of a response, as in `handleLogin`
(src/unnamed/part_001, lines 375–389): branch on `result.success` alone; on
success use `result.data`, otherwise report `result.message`. -/
def consumeResponse (r : JsonResponse) : Except String String :=
  if r.success then .ok (r.data.getD "")
  else .error (r.message.getD "Login failed")

/-- C8: every serialized response carries the success flag together with a
data payload exactly on success and a message exactly on failure, and the
flag alone decides success: a consumer branching on it, as `handleLogin`
does, recovers exactly the handler outcome. -/
theorem api_response_shape (res : ApiResult) :
    ((serializeResponse res).success = true ↔ ∃ d, res = .ok d) ∧
    ((serializeResponse res).success = true →
        (serializeResponse res).data.isSome = true ∧
          (serializeResponse res).message = none) ∧
    ((serializeResponse res).success = false →
        (serializeResponse res).message.isSome = true ∧
          (serializeResponse res).data = none) ∧
    (∀ d, res = .ok d → consumeResponse (serializeResponse res) = .ok d) ∧
    (∀ m, res = .err m →
        consumeResponse (serializeResponse res) = .error m) := by
  cases res <;> simp [serializeResponse, consumeResponse]

/-- C8 witness: a concrete successful response is decided by its flag alone
and yields its payload. -/
theorem api_response_shape_witness :
    consumeResponse (serializeResponse (.ok "token")) = .ok "token" :=
  (api_response_shape (.ok "token")).2.2.2.1 "token" rfl

/-- The outcome of one invocation of the launcher `run.sh` (src/run.sh). -/
inductive RunOutcome where
  | venvMissing
  | depsMissing
  | launched (mode host port : String)
  | usage
deriving Repr, DecidableEq

/-- Bash `${n:-default}` as used for `MODE`/`HOST`/`PORT`
(src/run.sh, lines 23–25): the default substitutes when the positional
parameter is unset or empty. -/
def argOr (args : List String) (i : Nat) (dflt : String) : String :=
  match args.get? i with
  | none => dflt
  | some s => if s = "" then dflt else s

/-- The launcher `run.sh`: check the virtualenv directory, check that
`cv2, face_recognition, flask` import (exit 1 otherwise), parse
`MODE`/`HOST`/`PORT` with defaults, and dispatch on `MODE`; an unknown mode
prints usage and exits 1.  `venvExists` models the `[ -d venv ]` test and
`depsOk` the import check's exit status; only the web mode passes host and
port on to `main.py`, but all modes parse them. -/
def runScript (venvExists depsOk : Bool) (args : List String) : RunOutcome :=
  if !venvExists then .venvMissing
  else if !depsOk then .depsMissing
  else
    let mode := argOr args 0 "web"
    let host := argOr args 1 "0.0.0.0"
    let port := argOr args 2 "5000"
    if mode = "web" then .launched "web" host port
    else if mode = "cli" then .launched "cli" host port
    else if mode = "attendance" then .launched "attendance" host port
    else .usage

/-- Exit status reported by the launcher: every non-launch outcome exits
with status 1; a launch hands control to `main.py`. -/
def runExitStatus : RunOutcome → Option Nat
  | .launched _ _ _ => none
  | _ => some 1

/-- C9: when the dependency import check fails (the encoding provider is
unavailable at startup) the launcher aborts with exit status 1 before
launching anything; when the virtualenv exists and the imports succeed, the
selected mode (one of web, cli, attendance) is launched. -/
theorem startup_dependency_gate (args : List String) :
    (runScript true false args = .depsMissing ∧
        runExitStatus (runScript true false args) = some 1 ∧
        ∀ m h p, runScript true false args ≠ .launched m h p) ∧
    (∀ mode, mode ∈ (["web", "cli", "attendance"] : List String) →
        argOr args 0 "web" = mode →
        runScript true true args
          = .launched mode (argOr args 1 "0.0.0.0") (argOr args 2 "5000")) := by
  constructor
  · refine ⟨rfl, rfl, ?_⟩
    intro m h p
    simp [runScript]
  · intro mode hmem hmode
    simp only [List.mem_cons, List.not_mem_nil, or_false] at hmem
    rcases hmem with rfl | rfl | rfl <;> simp [runScript, hmode]

/-- C9 witness: with dependencies available, the cli mode launches. -/
theorem startup_dependency_gate_witness :
    runScript true true ["cli"] = .launched "cli" "0.0.0.0" "5000" :=
  (startup_dependency_gate ["cli"]).2 "cli" (by simp) rfl

/-- C10 counterexample: an empty first argument lies outside
{web, cli, attendance}, yet `${1:-web}` treats an empty parameter as unset,
so the launcher starts the web mode instead of printing usage and exiting
with status 1. -/
theorem launcher_usage_counterexample :
    runScript true true [""] = .launched "web" "0.0.0.0" "5000" := rfl

/-- C10 (amended): launcher argument handling is total and deterministic:
with no arguments the mode defaults to "web", the host to "0.0.0.0" and the
port to "5000"; every nonempty first argument outside
{web, cli, attendance} makes the script print usage and exit with status 1
without launching the application; an empty first argument is treated as
unset and defaults to "web". -/
theorem launcher_defaults_and_usage (m : String) (rest : List String)
    (hm : m ∉ (["web", "cli", "attendance"] : List String)) (hne : m ≠ "") :
    runScript true true [] = .launched "web" "0.0.0.0" "5000" ∧
    runScript true true (m :: rest) = .usage ∧
    runExitStatus (runScript true true (m :: rest)) = some 1 ∧
    ∀ mo h p, runScript true true (m :: rest) ≠ .launched mo h p := by
  have h1 : m ≠ "web" := fun h => hm (by simp [h])
  have h2 : m ≠ "cli" := fun h => hm (by simp [h])
  have h3 : m ≠ "attendance" := fun h => hm (by simp [h])
  have hrun : runScript true true (m :: rest) = .usage := by
    simp [runScript, argOr, hne, h1, h2, h3]
  refine ⟨rfl, hrun, by rw [hrun]; rfl, ?_⟩
  intro mo h p
  rw [hrun]
  simp

/-- C10 witness: a concrete unknown mode yields usage and exit 1, and the
no-argument invocation launches the web defaults. -/
theorem launcher_defaults_and_usage_witness :
    runScript true true [] = .launched "web" "0.0.0.0" "5000" ∧
    runScript true true ["foo"] = .usage ∧
    runExitStatus (runScript true true ["foo"]) = some 1 ∧
    ∀ mo h p, runScript true true ["foo"] ≠ .launched mo h p :=
  launcher_defaults_and_usage "foo" [] (by simp) (by simp)
